import Mathlib

/-!
Verification of the template drift detection and reconciliation engine of
`spectrena` (file `src/spectrena/update.py`).

The embedding models:
  * the action enumeration and the three module-level glob pattern tables;
  * `matches_pattern` / Python `fnmatch.fnmatch` (POSIX, case-sensitive; the
    pattern tables contain only literal characters and `*`, so the model
    implements the `*` and `?` metacharacters and treats every other
    character as a literal, exactly as `fnmatch` does for these patterns);
  * `categorize_file`, `file_hash` (parameterised over the digest function,
    which in the source is `hashlib.sha256(...).hexdigest()[:12]`, an
    external library primitive), the hash ledger, `generate_diff`,
    `create_update_plan`, `save_original_hashes`, `apply_update_plan`,
    the zip extraction name handling of `download_template`, and the
    control flow of `run_update`.

File contents are byte lists; the project filesystem is a map from
root-relative forward-slash paths to optional contents.
-/

/-- Action to take for a file during update (`UpdateAction` in the source). -/
inductive UpdateAction where
  | preserve
  | update
  | merge
  | add
  | deprecated
deriving DecidableEq, Repr

/-- `PRESERVE_PATTERNS` from the source. -/
def PRESERVE_PATTERNS : List String :=
  [".spectrena/memory/*",
   ".spectrena/config.yml",
   ".spectrena/backlog.md",
   ".spectrena/lineage.db/*",
   ".spectrena/discovery.md",
   "specs/*"]

/-- `UPDATE_PATTERNS` from the source. -/
def UPDATE_PATTERNS : List String :=
  [".spectrena/scripts/**",
   ".claude/commands/*",
   ".cursor/commands/*",
   ".github/copilot-instructions.md",
   ".windsurf/commands/*",
   ".cline/commands/*",
   ".roo-cline/commands/*"]

/-- `MERGE_PATTERNS` from the source. -/
def MERGE_PATTERNS : List String :=
  [".spectrena/templates/*"]

/-- All suffixes of a character list (the strings a `*` may skip over). -/
def allTails : List Char → List (List Char)
  | [] => [[]]
  | c :: cs => (c :: cs) :: allTails cs

/-- Python `fnmatch.fnmatch(name, pat)` on POSIX for patterns built from
literal characters, `*` and `?`: `fnmatch` translates the pattern to an
anchored regex in which `*` becomes `.*` (matching ANY characters,
including `/`) and `?` becomes any single character, so a starred pattern
matches when some suffix of the name matches the rest of the pattern.
First argument is the pattern as a character list, second the name. -/
def fnmatchList : List Char → List Char → Bool
  | [], cs => cs.isEmpty
  | '*' :: ps, cs => (allTails cs).any (fun t => fnmatchList ps t)
  | '?' :: ps, cs =>
      (match cs with
       | [] => false
       | _ :: cs2 => fnmatchList ps cs2)
  | p :: ps, cs =>
      (match cs with
       | [] => false
       | c :: cs2 => p == c && fnmatchList ps cs2)

/-- `fnmatch.fnmatch(name, pat)` on strings. -/
def fnmatch (name pat : String) : Bool :=
  fnmatchList pat.toList name.toList

/-- `matches_pattern` from the source: `any(fnmatch(path, p) for p in patterns)`. -/
def matches_pattern (path : String) (patterns : List String) : Bool :=
  patterns.any (fun p => fnmatch path p)

/-- `categorize_file` from the source: determine the action for a file from
its root-relative path, whether a local counterpart exists, and whether the
local copy is considered modified. -/
def categorize_file (rel_path : String) (exists_loc modified : Bool) :
    UpdateAction × String :=
  if matches_pattern rel_path PRESERVE_PATTERNS then
    (UpdateAction.preserve, "User content - never modified")
  else if matches_pattern rel_path UPDATE_PATTERNS then
    if exists_loc then (UpdateAction.update, "Framework file - will be updated")
    else (UpdateAction.add, "New framework file")
  else if matches_pattern rel_path MERGE_PATTERNS then
    if !exists_loc then (UpdateAction.add, "New template")
    else if modified then (UpdateAction.merge, "Template modified - needs review")
    else (UpdateAction.update, "Template unchanged - safe to update")
  else if exists_loc then (UpdateAction.preserve, "Unknown file - preserving")
  else (UpdateAction.add, "New file")

/-- The classification priority order exactly as the specification words it:
PRESERVE patterns first regardless of flags, then UPDATE patterns (UPDATE if
the file exists, else ADD), then MERGE patterns (ADD if absent, MERGE if
present and modified, UPDATE if present and unmodified), and for unmatched
paths PRESERVE if the file exists, else ADD. -/
def claimedAction (rel_path : String) (exists_loc modified : Bool) : UpdateAction :=
  if matches_pattern rel_path PRESERVE_PATTERNS then
    UpdateAction.preserve
  else if matches_pattern rel_path UPDATE_PATTERNS then
    (if exists_loc then UpdateAction.update else UpdateAction.add)
  else if matches_pattern rel_path MERGE_PATTERNS then
    (if exists_loc = false then UpdateAction.add
     else if modified then UpdateAction.merge
     else UpdateAction.update)
  else if exists_loc then UpdateAction.preserve
  else UpdateAction.add

/-- Suffixes of a name reachable by consuming zero or more characters none
of which is `/` (the strings a segment-local `*` may skip over). -/
def segTails : List Char → List (List Char)
  | [] => [[]]
  | c :: cs => (c :: cs) :: (if c == '/' then [] else segTails cs)

/-- The matching semantics the specification claims: shell-style globbing in
which `*` matches only within one path segment (it never crosses `/`) and
recursive descent requires `**`.  First argument is the pattern, second the
name. -/
def globNoCrossList : List Char → List Char → Bool
  | [], cs => cs.isEmpty
  | '*' :: '*' :: ps, cs => (allTails cs).any (fun t => globNoCrossList ps t)
  | '*' :: ps, cs => (segTails cs).any (fun t => globNoCrossList ps t)
  | '?' :: ps, cs =>
      (match cs with
       | [] => false
       | c :: cs2 => !(c == '/') && globNoCrossList ps cs2)
  | p :: ps, cs =>
      (match cs with
       | [] => false
       | c :: cs2 => p == c && globNoCrossList ps cs2)

/-- The empty suffix is among the suffixes of every character list. -/
theorem mem_allTails_nil (cs : List Char) : ([] : List Char) ∈ allTails cs := by
  induction cs with
  | nil => simp [allTails]
  | cons c cs ih => simp only [allTails, List.mem_cons]; exact Or.inr ih

/-- A single `*` pattern matches every name under `fnmatch` semantics. -/
theorem fnmatchList_star (cs : List Char) : fnmatchList ['*'] cs = true := by
  simp only [fnmatchList, List.any_eq_true]
  exact ⟨[], mem_allTails_nil cs, rfl⟩

example : fnmatch "specs/a/b.md" "specs/*" = true := by decide
example : fnmatch ".spectrena/templates/x.md" ".spectrena/templates/*" = true := by decide
example : fnmatch "specs/a/b.md" "Specs/*" = false := by decide
example : globNoCrossList "specs/*".toList "specs/a/b.md".toList = false := by decide
example : globNoCrossList "specs/*".toList "specs/a.md".toList = true := by decide
example : globNoCrossList "a/**".toList "a/b/c.md".toList = true := by decide

/-- Stepping `fnmatchList` over one literal (non-metacharacter) pattern
character. -/
theorem fnmatchList_lit (c : Char) (h1 : c ≠ '*') (h2 : c ≠ '?')
    (ps : List Char) (d : Char) (cs : List Char) :
    fnmatchList (c :: ps) (d :: cs) = (c == d && fnmatchList ps cs) := by
  rw [fnmatchList.eq_def]
  split <;> simp_all

/-- Consuming a shared literal (metacharacter-free) prefix of pattern and
name leaves `fnmatchList` on the remainders. -/
theorem fnmatchList_lit_chunk (t : List Char)
    (h : ∀ c ∈ t, c ≠ '*' ∧ c ≠ '?') (ps cs : List Char) :
    fnmatchList (t ++ ps) (t ++ cs) = fnmatchList ps cs := by
  induction t with
  | nil => rfl
  | cons a t ih =>
    have ha := h a (by simp)
    rw [List.cons_append, List.cons_append, fnmatchList_lit a ha.1 ha.2]
    rw [ih (fun c hc => h c (by simp [hc]))]
    simp

/-- C7 counterexample: `matches_pattern` is implemented with Python
`fnmatch`, whose `*` crosses the `/` separator.  The PRESERVE pattern
`specs/*` therefore matches the nested path `specs/a/b.md`, which the
claimed segment-local glob semantics (`globNoCrossList`) would reject. -/
theorem matches_pattern_star_crosses_sep_cex :
    matches_pattern "specs/a/b.md" PRESERVE_PATTERNS = true ∧
    PRESERVE_PATTERNS.any
      (fun pat => globNoCrossList pat.toList "specs/a/b.md".toList) = false := by
  decide

/-- C7 amended: pattern matching in classification uses Python `fnmatch`
semantics, in which `*` matches ANY run of characters including the `/`
separator (so a single `*` already descends recursively and `**` is not
needed); matching is case-sensitive and against the forward-slash
root-relative path.  Concretely: every path under `specs/` (at any depth)
matches the PRESERVE table, and a case-changed path does not. -/
theorem matches_pattern_fnmatch_semantics :
    (∀ s : String, fnmatch ("specs/" ++ s) "specs/*" = true) ∧
    (∀ s : String, matches_pattern ("specs/" ++ s) PRESERVE_PATTERNS = true) ∧
    matches_pattern "specs/a/b.md" PRESERVE_PATTERNS = true ∧
    matches_pattern "Specs/a.md" PRESERVE_PATTERNS = false := by
  have star_all : ∀ s : String, fnmatch ("specs/" ++ s) "specs/*" = true := by
    intro s
    unfold fnmatch
    have hs : ("specs/" ++ s).toList = ['s','p','e','c','s','/'] ++ s.toList := by
      simp [String.toList]
    have hp : ("specs/*" : String).toList = ['s','p','e','c','s','/'] ++ ['*'] := by
      decide
    rw [hs, hp, fnmatchList_lit_chunk _ (by decide)]
    exact fnmatchList_star _
  refine ⟨star_all, ?_, by decide, by decide⟩
  intro s
  have hmem : "specs/*" ∈ PRESERVE_PATTERNS := by decide
  unfold matches_pattern
  rw [List.any_eq_true]
  exact ⟨"specs/*", hmem, star_all s⟩

/-- C1: for every path, exists flag and modified flag, `categorize_file`
returns the action dictated by the fixed priority order of the
specification (PRESERVE patterns, then UPDATE patterns, then MERGE
patterns, then the unmatched-path default). -/
theorem categorize_file_follows_priority (p : String) (e m : Bool) :
    (categorize_file p e m).1 = claimedAction p e m := by
  cases h1 : matches_pattern p PRESERVE_PATTERNS <;>
    cases h2 : matches_pattern p UPDATE_PATTERNS <;>
      cases h3 : matches_pattern p MERGE_PATTERNS <;>
        cases e <;> cases m <;>
          simp [categorize_file, claimedAction, h1, h2, h3]

/-! ## Plan building -/

/-- File contents as raw bytes. -/
abbrev Bytes := List Nat

/-- `FileUpdate` dataclass from the source. -/
structure FileUpdate where
  path : String
  action : UpdateAction
  reason : String
  old_hash : Option String := none
  new_hash : Option String := none
  diff : Option String := none
deriving DecidableEq, Repr

/-- `UpdatePlan` dataclass from the source. -/
structure UpdatePlan where
  from_version : String
  to_version : String
  files : List FileUpdate := []
deriving DecidableEq, Repr

/-- `UpdatePlan.preserve_count`. -/
def UpdatePlan.preserve_count (p : UpdatePlan) : Nat :=
  (p.files.filter (fun f => f.action == UpdateAction.preserve)).length

/-- `UpdatePlan.update_count`. -/
def UpdatePlan.update_count (p : UpdatePlan) : Nat :=
  (p.files.filter (fun f => f.action == UpdateAction.update)).length

/-- `UpdatePlan.merge_count`. -/
def UpdatePlan.merge_count (p : UpdatePlan) : Nat :=
  (p.files.filter (fun f => f.action == UpdateAction.merge)).length

/-- `UpdatePlan.add_count`. -/
def UpdatePlan.add_count (p : UpdatePlan) : Nat :=
  (p.files.filter (fun f => f.action == UpdateAction.add)).length

/-- `file_hash` from the source: `None` when the file does not exist, else
the compact digest of its bytes.  The digest itself
(`hashlib.sha256(...).hexdigest()[:12]`) is an external library primitive,
so the model is parameterised over the digest function `hashFn`. -/
def file_hash (hashFn : Bytes → String) (content : Option Bytes) : Option String :=
  content.map hashFn

/-- The persisted hash ledger (`.spectrena/.template-hashes.json`): a flat
path-to-digest mapping, kept in insertion order as Python dicts are. -/
abbrev Ledger := List (String × Option String)

/-- Python `dict.get(key)`: the stored value, or `None` when absent. -/
def ledgerGet (lg : Ledger) (p : String) : Option String :=
  match lg.find? (fun kv => kv.1 == p) with
  | some kv => kv.2
  | none => none

/-- `load_original_hashes` from the source: the parsed ledger file, or an
empty mapping when the file does not exist. -/
def load_original_hashes (ledgerFile : Option Ledger) : Ledger :=
  ledgerFile.getD []

/-- A UTF-8 continuation byte. -/
def isUtf8Cont (b : Nat) : Bool := 0x80 ≤ b && b ≤ 0xBF

/-- Strict UTF-8 decodability of a byte sequence.  Python's
`Path.read_text()` raises `UnicodeDecodeError` exactly on byte sequences
that are not valid UTF-8. -/
def utf8Decodable : Bytes → Bool
  | [] => true
  | b :: bs =>
    if b ≤ 0x7F then utf8Decodable bs
    else if 0xC2 ≤ b && b ≤ 0xDF then
      match bs with
      | c1 :: rest => isUtf8Cont c1 && utf8Decodable rest
      | [] => false
    else if b == 0xE0 then
      match bs with
      | c1 :: c2 :: rest =>
          (0xA0 ≤ c1 && c1 ≤ 0xBF) && isUtf8Cont c2 && utf8Decodable rest
      | _ => false
    else if b == 0xED then
      match bs with
      | c1 :: c2 :: rest =>
          (0x80 ≤ c1 && c1 ≤ 0x9F) && isUtf8Cont c2 && utf8Decodable rest
      | _ => false
    else if 0xE1 ≤ b && b ≤ 0xEF then
      match bs with
      | c1 :: c2 :: rest => isUtf8Cont c1 && isUtf8Cont c2 && utf8Decodable rest
      | _ => false
    else if b == 0xF0 then
      match bs with
      | c1 :: c2 :: c3 :: rest =>
          (0x90 ≤ c1 && c1 ≤ 0xBF) && isUtf8Cont c2 && isUtf8Cont c3 &&
            utf8Decodable rest
      | _ => false
    else if 0xF1 ≤ b && b ≤ 0xF3 then
      match bs with
      | c1 :: c2 :: c3 :: rest =>
          isUtf8Cont c1 && isUtf8Cont c2 && isUtf8Cont c3 && utf8Decodable rest
      | _ => false
    else if b == 0xF4 then
      match bs with
      | c1 :: c2 :: c3 :: rest =>
          (0x80 ≤ c1 && c1 ≤ 0x8F) && isUtf8Cont c2 && isUtf8Cont c3 &&
            utf8Decodable rest
      | _ => false
    else false

/-- `generate_diff` from the source reads both files as text (raising on
bytes that are not valid UTF-8, modelled as `Except.error`) and joins the
output of `difflib.unified_diff` over the two line lists.  `unified_diff`
yields no lines at all when the two sequences are equal (equal texts iff
equal bytes, given decodability) and otherwise at least its two header
lines; no claim inspects the diff text beyond emptiness, so the joined
output is modelled as empty exactly on equal contents and as a fixed
non-empty header otherwise. -/
def generate_diff (old_c new_c : Bytes) : Except Unit String :=
  if utf8Decodable old_c && utf8Decodable new_c then
    .ok (if old_c == new_c then "" else "--- current\n+++ updated\n@@\n")
  else
    .error ()

/-- The modified test of `create_update_plan`:
`modified = exists and old_hash != original_hash`, where `old_hash` is the
digest of the local counterpart (or `None`) and `original_hash` the
ledger's recorded digest (or `None` when absent, which compares unequal to
any real digest). -/
def computeModified (hashFn : Bytes → String) (localFs : String → Option Bytes)
    (lg : Ledger) (p : String) : Bool :=
  (localFs p).isSome && ((localFs p).map hashFn != ledgerGet lg p)

/-- One iteration of the `create_update_plan` scan loop, for the incoming
template file at relative path `p` with content `c`. -/
def plan_entry (hashFn : Bytes → String) (localFs : String → Option Bytes)
    (lg : Ledger) (p : String) (c : Bytes) : Except Unit FileUpdate :=
  let exists_loc := (localFs p).isSome
  let old_hash := (localFs p).map hashFn
  let new_hash := some (hashFn c)
  let modified := computeModified hashFn localFs lg p
  let ar := categorize_file p exists_loc modified
  if ar.1 == UpdateAction.merge && exists_loc then
    match generate_diff ((localFs p).getD []) c with
    | .ok d => .ok ⟨p, ar.1, ar.2, old_hash, new_hash, some d⟩
    | .error e => .error e
  else
    .ok ⟨p, ar.1, ar.2, old_hash, new_hash, none⟩

/-- The scan loop of `create_update_plan` over the incoming template's
regular files (in traversal order, directories excluded). -/
def plan_files (hashFn : Bytes → String) (localFs : String → Option Bytes)
    (lg : Ledger) : List (String × Bytes) → Except Unit (List FileUpdate)
  | [] => .ok []
  | (p, c) :: rest =>
    match plan_entry hashFn localFs lg p c with
    | .error e => .error e
    | .ok u =>
      match plan_files hashFn localFs lg rest with
      | .error e => .error e
      | .ok us => .ok (u :: us)

/-- `create_update_plan` from the source: load the ledger, scan the
incoming template files, and collect one `FileUpdate` per file. -/
def create_update_plan (hashFn : Bytes → String)
    (localFs : String → Option Bytes) (ledgerFile : Option Ledger)
    (incoming : List (String × Bytes))
    (current_version new_version : String) : Except Unit UpdatePlan :=
  match plan_files hashFn localFs (load_original_hashes ledgerFile) incoming with
  | .error e => .error e
  | .ok us => .ok ⟨current_version, new_version, us⟩

example : utf8Decodable [104, 105] = true := by decide
example : utf8Decodable [255] = false := by decide
example : utf8Decodable [0xC3, 0xA9] = true := by decide
example : utf8Decodable [0xC3] = false := by decide

/-- A concrete injective stand-in digest (bytes rendered as characters),
used to instantiate `hashFn` in witnesses. -/
def byteDigest (b : Bytes) : String := String.mk (b.map Char.ofNat)

/-- Characterisation of a successful `plan_entry`: the update's path is the
scanned path, its action is the classification of the computed flags, and
it carries a diff exactly when the action is MERGE and the local
counterpart exists. -/
theorem plan_entry_spec (hashFn : Bytes → String)
    (localFs : String → Option Bytes) (lg : Ledger) (p : String) (c : Bytes)
    (u : FileUpdate) (h : plan_entry hashFn localFs lg p c = .ok u) :
    u.path = p ∧
    u.action =
      (categorize_file p (localFs p).isSome (computeModified hashFn localFs lg p)).1 ∧
    (u.diff.isSome = true ↔
      (u.action = UpdateAction.merge ∧ (localFs p).isSome = true)) := by
  unfold plan_entry at h
  by_cases hb :
      ((categorize_file p (localFs p).isSome
          (computeModified hashFn localFs lg p)).1 == UpdateAction.merge &&
        (localFs p).isSome) = true
  · simp only [hb, if_true] at h
    rcases hg : generate_diff ((localFs p).getD []) c with e | d <;> rw [hg] at h
    · cases h
    · cases h
      have hb2 := hb
      rw [Bool.and_eq_true, beq_iff_eq] at hb2
      refine ⟨rfl, rfl, ?_⟩
      simp only [Option.isSome_some, eq_self_iff_true, true_iff]
      exact hb2
  · rw [if_neg hb] at h
    rw [Bool.and_eq_true, beq_iff_eq] at hb
    cases h
    refine ⟨rfl, rfl, ?_⟩
    constructor
    · intro hft; exact absurd hft (by simp)
    · intro hco; exact (hb ⟨hco.1, hco.2⟩).elim

/-- Each successful scan produces exactly the incoming paths, in order. -/
theorem plan_files_paths (hashFn : Bytes → String)
    (localFs : String → Option Bytes) (lg : Ledger) :
    ∀ (incoming : List (String × Bytes)) (us : List FileUpdate),
      plan_files hashFn localFs lg incoming = .ok us →
      us.map FileUpdate.path = incoming.map Prod.fst := by
  intro incoming
  induction incoming with
  | nil =>
    intro us h
    cases h
    rfl
  | cons pc rest ih =>
    intro us h
    obtain ⟨p, c⟩ := pc
    unfold plan_files at h
    rcases he : plan_entry hashFn localFs lg p c with e | u <;> rw [he] at h
    · cases h
    · rcases hr : plan_files hashFn localFs lg rest with e | us2 <;> rw [hr] at h
      · cases h
      · cases h
        have hp := (plan_entry_spec hashFn localFs lg p c u he).1
        simp [hp, ih us2 hr]

/-- C3: every regular file under the incoming template root yields exactly
one `FileUpdate` (the plan's path list equals the incoming path list, in
order), and no path outside the incoming tree — in particular no
local-only file — ever appears in the plan. -/
theorem create_update_plan_complete (hashFn : Bytes → String)
    (localFs : String → Option Bytes) (ledgerFile : Option Ledger)
    (incoming : List (String × Bytes)) (cv nv : String) (plan : UpdatePlan)
    (h : create_update_plan hashFn localFs ledgerFile incoming cv nv = .ok plan) :
    plan.files.map FileUpdate.path = incoming.map Prod.fst ∧
    ∀ q : String, q ∉ incoming.map Prod.fst →
      q ∉ plan.files.map FileUpdate.path := by
  unfold create_update_plan at h
  rcases hpf : plan_files hashFn localFs (load_original_hashes ledgerFile) incoming
      with e | us <;> rw [hpf] at h
  · cases h
  · cases h
    have h1 := plan_files_paths hashFn localFs (load_original_hashes ledgerFile)
      incoming us hpf
    exact ⟨h1, fun q hq => by rw [h1]; exact hq⟩

/-- Local project contents used by the plan-completeness witness. -/
def c3Local : String → Option Bytes :=
  fun q => if q == "local-only.txt" then some [97] else none

/-- The plan the completeness witness produces. -/
def c3Plan : UpdatePlan :=
  ⟨"0.0.0", "1.0.0",
   [⟨"a.txt", UpdateAction.add, "New file", none, some (byteDigest [98]), none⟩]⟩

/-- Witness for `create_update_plan_complete` at a concrete project: the
incoming file appears exactly once and the local-only file never. -/
theorem create_update_plan_complete_witness :
    create_update_plan byteDigest c3Local none [("a.txt", [98])] "0.0.0" "1.0.0" =
      .ok c3Plan ∧
    c3Plan.files.map FileUpdate.path =
      ([("a.txt", ([98] : Bytes))].map Prod.fst) ∧
    "local-only.txt" ∉ c3Plan.files.map FileUpdate.path := by
  have h : create_update_plan byteDigest c3Local none
      [("a.txt", [98])] "0.0.0" "1.0.0" = .ok c3Plan := by rfl
  refine ⟨h, (create_update_plan_complete _ _ _ _ _ _ _ h).1, ?_⟩
  exact (create_update_plan_complete _ _ _ _ _ _ _ h).2 "local-only.txt" (by decide)

/-- The modified rule exactly as the specification words it: the local file
exists AND its digest differs from the ledger's recorded digest for the
path, a missing ledger entry counting as different whenever the local file
exists. -/
def claimedModified (hashFn : Bytes → String) (localFs : String → Option Bytes)
    (lg : Ledger) (p : String) : Bool :=
  match localFs p, ledgerGet lg p with
  | none, _ => false
  | some _, none => true
  | some c, some d => !(hashFn c == d)

/-- C2: the modified flag computed during plan building is exactly the
specification's rule (exists AND digest differs, missing ledger entry ⇒
modified whenever the file exists); consequently, on a first-ever sync
(no ledger file) a MERGE-pattern file whose local copy is byte-identical
to the incoming version is still planned as MERGE, not UPDATE. -/
theorem modified_flag_spec (hashFn : Bytes → String)
    (localFs : String → Option Bytes) (p : String) (c : Bytes)
    (hmm : matches_pattern p MERGE_PATTERNS = true)
    (hmp : matches_pattern p PRESERVE_PATTERNS = false)
    (hmu : matches_pattern p UPDATE_PATTERNS = false)
    (hc : localFs p = some c)
    (hd : utf8Decodable c = true) :
    (∀ (lg : Ledger) (q : String),
      computeModified hashFn localFs lg q = claimedModified hashFn localFs lg q) ∧
    ∃ u, plan_entry hashFn localFs (load_original_hashes none) p c = .ok u ∧
      u.action = UpdateAction.merge := by
  constructor
  · intro lg q
    rcases h1 : localFs q with _ | c2 <;> rcases h2 : ledgerGet lg q with _ | d <;>
      simp [computeModified, claimedModified, h1, h2, bne]
  · have hmod : computeModified hashFn localFs [] p = true := by
      simp [computeModified, ledgerGet, hc]
    have hcat : categorize_file p true true =
        (UpdateAction.merge, "Template modified - needs review") := by
      simp [categorize_file, hmm, hmp, hmu]
    refine ⟨⟨p, UpdateAction.merge, "Template modified - needs review",
      some (hashFn c), some (hashFn c), some ""⟩, ?_, rfl⟩
    unfold plan_entry
    simp [hc, load_original_hashes, hmod, hcat, generate_diff, hd]

/-- Local project contents used by the modified-flag witness: it holds the
MERGE-pattern template byte-identical to the incoming copy. -/
def c2Local : String → Option Bytes :=
  fun q => if q == ".spectrena/templates/x.md" then some [104, 105] else none

/-- Witness for `modified_flag_spec`: on a first-ever sync the
byte-identical template `.spectrena/templates/x.md` is planned MERGE. -/
theorem modified_flag_spec_witness :
    matches_pattern ".spectrena/templates/x.md" MERGE_PATTERNS = true ∧
    c2Local ".spectrena/templates/x.md" = some [104, 105] ∧
    ∃ u, plan_entry byteDigest c2Local (load_original_hashes none)
        ".spectrena/templates/x.md" [104, 105] = .ok u ∧
      u.action = UpdateAction.merge := by
  refine ⟨by decide, by decide, ?_⟩
  exact (modified_flag_spec byteDigest c2Local ".spectrena/templates/x.md"
    [104, 105] (by decide) (by decide) (by decide) (by decide) (by decide)).2

/-- In every successful scan, an update carries a diff exactly when its
action is MERGE and its local counterpart exists. -/
theorem plan_files_diff (hashFn : Bytes → String)
    (localFs : String → Option Bytes) (lg : Ledger) :
    ∀ (incoming : List (String × Bytes)) (us : List FileUpdate),
      plan_files hashFn localFs lg incoming = .ok us →
      ∀ u ∈ us,
        (u.diff.isSome = true ↔
          (u.action = UpdateAction.merge ∧ (localFs u.path).isSome = true)) := by
  intro incoming
  induction incoming with
  | nil =>
    intro us h
    cases h
    intro u hu
    cases hu
  | cons pc rest ih =>
    intro us h
    obtain ⟨p, c⟩ := pc
    unfold plan_files at h
    rcases he : plan_entry hashFn localFs lg p c with e | u0 <;> rw [he] at h
    · cases h
    · rcases hr : plan_files hashFn localFs lg rest with e | us2 <;> rw [hr] at h
      · cases h
      · cases h
        intro u hu
        rcases List.mem_cons.mp hu with h0 | h0
        · subst h0
          have hs := plan_entry_spec hashFn localFs lg p c u he
          rw [hs.1]
          exact hs.2.2
        · exact ih us2 hr u h0

/-- C5: in every plan `create_update_plan` produces, a `FileUpdate` carries
a diff exactly when its action is MERGE and the local file pre-existed;
entries with action ADD or PRESERVE never carry a diff. -/
theorem plan_diff_iff_merge (hashFn : Bytes → String)
    (localFs : String → Option Bytes) (ledgerFile : Option Ledger)
    (incoming : List (String × Bytes)) (cv nv : String) (plan : UpdatePlan)
    (h : create_update_plan hashFn localFs ledgerFile incoming cv nv = .ok plan) :
    ∀ u ∈ plan.files,
      (u.diff.isSome = true ↔
        (u.action = UpdateAction.merge ∧ (localFs u.path).isSome = true)) ∧
      ((u.action = UpdateAction.add ∨ u.action = UpdateAction.preserve) →
        u.diff = none) := by
  unfold create_update_plan at h
  rcases hpf : plan_files hashFn localFs (load_original_hashes ledgerFile) incoming
      with e | us <;> rw [hpf] at h
  · cases h
  · cases h
    intro u hu
    have hiff := plan_files_diff hashFn localFs (load_original_hashes ledgerFile)
      incoming us hpf u hu
    refine ⟨hiff, fun ha => ?_⟩
    rcases hdf : u.diff with _ | d
    · rfl
    · have : u.action = UpdateAction.merge ∧ (localFs u.path).isSome = true :=
        hiff.mp (by rw [hdf]; rfl)
      rcases ha with ha | ha <;> rw [ha] at this <;> cases this.1

/-- Local project contents used by the diff witness: a MERGE-pattern
template whose recorded digest differs from its current digest. -/
def c5Local : String → Option Bytes :=
  fun q => if q == ".spectrena/templates/t.md" then some [97] else none

/-- The plan the diff witness produces: one MERGE entry carrying a diff. -/
def c5Plan : UpdatePlan :=
  ⟨"1.0.0", "2.0.0",
   [⟨".spectrena/templates/t.md", UpdateAction.merge,
     "Template modified - needs review", some (byteDigest [97]),
     some (byteDigest [98]), some "--- current\n+++ updated\n@@\n"⟩]⟩

/-- Witness for `plan_diff_iff_merge` at a concrete project with one
modified MERGE-pattern template. -/
theorem plan_diff_iff_merge_witness :
    create_update_plan byteDigest c5Local
        (some [(".spectrena/templates/t.md", some "Z")])
        [(".spectrena/templates/t.md", [98])] "1.0.0" "2.0.0" = .ok c5Plan ∧
    ∀ u ∈ c5Plan.files,
      (u.diff.isSome = true ↔
        (u.action = UpdateAction.merge ∧ (c5Local u.path).isSome = true)) ∧
      ((u.action = UpdateAction.add ∨ u.action = UpdateAction.preserve) →
        u.diff = none) := by
  have h : create_update_plan byteDigest c5Local
      (some [(".spectrena/templates/t.md", some "Z")])
      [(".spectrena/templates/t.md", [98])] "1.0.0" "2.0.0" = .ok c5Plan := by rfl
  exact ⟨h, plan_diff_iff_merge _ _ _ _ _ _ _ h⟩

/-- Local project contents for the decode-error theorem: the MERGE-pattern
template's local bytes are not valid UTF-8. -/
def c10Local : String → Option Bytes :=
  fun q => if q == ".spectrena/templates/x.md" then some [255] else none

/-- C10: plan building is partial on non-text content.  For this incoming
template, the file is classified MERGE (it exists locally and was never
synced), so `create_update_plan` reads both copies as text to build the
diff; the local copy's byte `0xFF` is not decodable, and the plan scan
raises the decoding error instead of returning a plan. -/
theorem create_update_plan_decode_error :
    create_update_plan byteDigest c10Local none
      [(".spectrena/templates/x.md", [104])] "0.0.0" "1.0.0" = .error () := by
  rfl

/-! ## Plan application -/

/-- Python dict insertion while building `hashes`: an existing key's value
is replaced in place (dicts preserve insertion order), a new key is
appended. -/
def dictInsert (d : Ledger) (k : String) (v : Option String) : Ledger :=
  if d.any (fun kv => kv.1 == k) then
    d.map (fun kv => if kv.1 == k then (k, v) else kv)
  else
    d ++ [(k, v)]

/-- `save_original_hashes` from the source: rebuild the ledger mapping from
scratch out of the plan's UPDATE and ADD entries (path, new digest) and
write it wholesale over `.spectrena/.template-hashes.json`. -/
def save_original_hashes (plan : UpdatePlan) : Ledger :=
  plan.files.foldl
    (fun d u =>
      if u.action == UpdateAction.update || u.action == UpdateAction.add then
        dictInsert d u.path u.new_hash
      else d)
    []

/-- One section of the pending-updates reconciliation document
(`.spectrena/pending-updates.md`), modelled as its injective data content
— path, both hashes, the stored diff, and the full new-version content —
rather than the rendered markdown text. -/
structure PendingSection where
  path : String
  old_hash : Option String
  new_hash : Option String
  diff : Option String
  newContent : Bytes
deriving DecidableEq, Repr

/-- `write_pending_updates` from the source reads each pending file's
new-version text (`read_text`, raising when the incoming file is missing
or not decodable) and writes one consolidated document listing, per file,
both hashes, the diff and the full new content. -/
def build_pending_doc (incoming : String → Option Bytes) :
    List FileUpdate → Except Unit (List PendingSection)
  | [] => .ok []
  | u :: us =>
    match incoming u.path with
    | none => .error ()
    | some c =>
      if utf8Decodable c then
        match build_pending_doc incoming us with
        | .error e => .error e
        | .ok ss => .ok (⟨u.path, u.old_hash, u.new_hash, u.diff, c⟩ :: ss)
      else .error ()

/-- The project state the engine touches: regular files by root-relative
path, the ledger file (absent when never written), the reconciliation
document, the version marker file, and whether `.spectrena/` exists. -/
structure ProjState where
  files : String → Option Bytes
  ledgerFile : Option Ledger
  pendingDoc : Option (List PendingSection)
  versionFile : Option String
  hasSpectrenaDir : Bool

/-- `shutil.copy2` of incoming content over one destination path (parent
creation and metadata are not modelled). -/
def fsWrite (fs : String → Option Bytes) (p : String) (c : Bytes) :
    String → Option Bytes :=
  fun q => if q == p then some c else fs q

/-- The copy loop of `apply_update_plan`: PRESERVE (and the never-produced
DEPRECATED) entries are skipped, UPDATE and ADD entries are copied from
the incoming tree (a missing copy source raises, aborting the loop with
the partial writes persisting), MERGE entries accumulate as pending.
Returns the resulting files, the pending list in plan order, and whether
the loop completed. -/
def apply_files (incoming : String → Option Bytes) :
    List FileUpdate → (String → Option Bytes) →
    ((String → Option Bytes) × List FileUpdate × Bool)
  | [], fs => (fs, [], true)
  | u :: us, fs =>
    match u.action with
    | UpdateAction.update | UpdateAction.add =>
      match incoming u.path with
      | none => (fs, [], false)
      | some c => apply_files incoming us (fsWrite fs u.path c)
    | UpdateAction.merge =>
      let r := apply_files incoming us fs
      (r.1, u :: r.2.1, r.2.2)
    | _ => apply_files incoming us fs

/-- The steps of `apply_update_plan` after the copy loop: write the
consolidated pending document iff any merges were deferred (a raise while
building it aborts before the ledger is saved), then save the rebuilt
ledger; when the copy loop itself raised (`ok = false`) nothing further
runs and the partial writes persist. -/
def apply_finish (plan : UpdatePlan) (incoming : String → Option Bytes)
    (st : ProjState) (fs2 : String → Option Bytes) (pend : List FileUpdate)
    (ok : Bool) : ProjState × Option Unit :=
  if ok then
    match pend with
    | [] =>
      ({ st with
          files := fs2
          ledgerFile := some (save_original_hashes plan) }, none)
    | _ :: _ =>
      match build_pending_doc incoming pend with
      | .error _ => ({ st with files := fs2 }, some ())
      | .ok doc =>
        ({ st with
            files := fs2
            pendingDoc := some doc
            ledgerFile := some (save_original_hashes plan) }, none)
  else ({ st with files := fs2 }, some ())

/-- `apply_update_plan` from the source: run the copy loop over the plan's
entries, then the finishing steps (pending document, ledger save). -/
def apply_update_plan (plan : UpdatePlan) (incoming : String → Option Bytes)
    (st : ProjState) : ProjState × Option Unit :=
  let r := apply_files incoming plan.files st.files
  apply_finish plan incoming st r.1 r.2.1 r.2.2

/-- Inserting a key not present in the dict appends it. -/
theorem dictInsert_not_mem (d : Ledger) (k : String) (v : Option String)
    (h : d.any (fun kv => kv.1 == k) = false) :
    dictInsert d k v = d ++ [(k, v)] := by
  simp [dictInsert, h]

/-- The ledger-rebuild fold, started from a dict whose keys avoid the
remaining UPDATE/ADD paths, appends exactly the UPDATE/ADD entries. -/
theorem save_fold_eq (fs : List FileUpdate) :
    ∀ d : Ledger,
      (fs.map FileUpdate.path).Nodup →
      (∀ u ∈ fs,
        (u.action == UpdateAction.update || u.action == UpdateAction.add) = true →
        d.any (fun kv => kv.1 == u.path) = false) →
      fs.foldl
        (fun d u =>
          if u.action == UpdateAction.update || u.action == UpdateAction.add then
            dictInsert d u.path u.new_hash
          else d) d
        = d ++ (fs.filter
            (fun u =>
              u.action == UpdateAction.update || u.action == UpdateAction.add)).map
            (fun u => (u.path, u.new_hash)) := by
  induction fs with
  | nil => intro d _ _; simp
  | cons u fs ih =>
    intro d hnd hdis
    simp only [List.map_cons, List.nodup_cons] at hnd
    simp only [List.foldl_cons, List.filter_cons]
    by_cases hu : (u.action == UpdateAction.update || u.action == UpdateAction.add) = true
    · rw [if_pos hu, if_pos hu]
      rw [dictInsert_not_mem d u.path u.new_hash
        (hdis u (List.mem_cons_self u fs) hu)]
      rw [ih (d ++ [(u.path, u.new_hash)]) hnd.2 ?_]
      · simp
      · intro u2 hu2 hpred
        have h1 := hdis u2 (List.mem_cons_of_mem _ hu2) hpred
        have h2 : ¬(u.path == u2.path) = true := by
          rw [beq_iff_eq]
          intro heq
          exact hnd.1 (heq ▸ List.mem_map_of_mem FileUpdate.path hu2)
        simp only [List.any_append, h1, Bool.false_or]
        simp [h2]
    · rw [if_neg hu, if_neg hu]
      exact ih d hnd.2 (fun u2 hu2 hp => hdis u2 (List.mem_cons_of_mem _ hu2) hp)

/-- A ledger whose keys all differ from `p` has no entry for `p`. -/
theorem ledgerGet_eq_none_of_no_key (l : Ledger) (p : String)
    (h : ∀ kv ∈ l, kv.1 ≠ p) : ledgerGet l p = none := by
  unfold ledgerGet
  rcases hf : l.find? (fun kv => kv.1 == p) with _ | kv
  · rw [hf]
  · have hbeq := List.find?_some hf
    have hmem := List.mem_of_find?_eq_some hf
    exact ((h kv hmem) (beq_iff_eq.mp hbeq)).elim

/-- C4: the rebuilt ledger is exactly the (path ↦ new digest) entries of
the plan's UPDATE and ADD updates; a successful apply persists exactly
that mapping, whatever the ledger held before (wholesale replacement);
and any path carried only by PRESERVE or MERGE entries — or merely stale
from an earlier sync — has no entry afterwards. -/
theorem ledger_after_apply (plan : UpdatePlan)
    (hnd : (plan.files.map FileUpdate.path).Nodup) :
    save_original_hashes plan =
      (plan.files.filter
        (fun u =>
          u.action == UpdateAction.update || u.action == UpdateAction.add)).map
        (fun u => (u.path, u.new_hash)) ∧
    (∀ (incoming : String → Option Bytes) (st st1 : ProjState),
      apply_update_plan plan incoming st = (st1, none) →
      st1.ledgerFile = some (save_original_hashes plan)) ∧
    (∀ p : String,
      (∀ u ∈ plan.files,
        (u.action = UpdateAction.update ∨ u.action = UpdateAction.add) →
        u.path ≠ p) →
      ledgerGet (save_original_hashes plan) p = none) := by
  have h1 : save_original_hashes plan =
      (plan.files.filter
        (fun u =>
          u.action == UpdateAction.update || u.action == UpdateAction.add)).map
        (fun u => (u.path, u.new_hash)) := by
    unfold save_original_hashes
    rw [save_fold_eq plan.files [] hnd (fun _ _ _ => rfl)]
    simp
  refine ⟨h1, ?_, ?_⟩
  · intro incoming st st1 h
    unfold apply_update_plan at h
    rcases ha : apply_files incoming plan.files st.files with ⟨fs2, pend, ok⟩
    rw [ha] at h
    dsimp only at h
    unfold apply_finish at h
    rcases ok with _ | _
    · rw [if_neg (by simp)] at h
      injection h with h1 h2
      cases h2
    · rw [if_pos rfl] at h
      rcases pend with _ | ⟨u, pend2⟩
      · injection h with h1 h2
        rw [← h1]
      · rcases hb : build_pending_doc incoming (u :: pend2) with e | doc <;>
          rw [hb] at h
        · injection h with h1 h2
          cases h2
        · injection h with h1 h2
          rw [← h1]
  · intro p hp
    rw [h1]
    apply ledgerGet_eq_none_of_no_key
    intro kv hkv
    rcases List.mem_map.mp hkv with ⟨u, hu, hkv2⟩
    rcases List.mem_filter.mp hu with ⟨humem, hupred⟩
    have : u.action = UpdateAction.update ∨ u.action = UpdateAction.add := by
      rcases Bool.or_eq_true_iff.mp hupred with hx | hx
      · exact Or.inl (beq_iff_eq.mp hx)
      · exact Or.inr (beq_iff_eq.mp hx)
    rw [← hkv2]
    exact hp u humem this

/-- The plan used by the ledger witness: one UPDATE entry, one PRESERVE
entry. -/
def c4Plan : UpdatePlan :=
  ⟨"1.0.0", "2.0.0",
   [⟨"a.md", UpdateAction.update, "Framework file - will be updated",
     some "x", some "h1", none⟩,
    ⟨"specs/s.md", UpdateAction.preserve, "User content - never modified",
     some "y", none, none⟩]⟩

/-- Witness for `ledger_after_apply` at a concrete two-entry plan: only
the UPDATE entry reaches the ledger and the PRESERVE path has no entry. -/
theorem ledger_after_apply_witness :
    (c4Plan.files.map FileUpdate.path).Nodup ∧
    save_original_hashes c4Plan =
      (c4Plan.files.filter
        (fun u =>
          u.action == UpdateAction.update || u.action == UpdateAction.add)).map
        (fun u => (u.path, u.new_hash)) ∧
    ledgerGet (save_original_hashes c4Plan) "specs/s.md" = none := by
  refine ⟨by decide, (ledger_after_apply c4Plan (by decide)).1, ?_⟩
  exact (ledger_after_apply c4Plan (by decide)).2.2 "specs/s.md" (by decide)

/-- Overwriting a path with the content it already holds changes nothing. -/
theorem fsWrite_self (fs : String → Option Bytes) (p : String) (c : Bytes)
    (h : fs p = some c) : fsWrite fs p c = fs := by
  funext q
  unfold fsWrite
  by_cases hq : (q == p) = true
  · rw [if_pos hq, beq_iff_eq.mp hq, h]
  · rw [if_neg hq]

/-- Every value the copy loop leaves at a path is either the original one
or the incoming content for that path. -/
theorem apply_files_writes (incoming : String → Option Bytes) :
    ∀ (us : List FileUpdate) (fs fs2 : String → Option Bytes)
      (pend : List FileUpdate) (ok : Bool),
      apply_files incoming us fs = (fs2, pend, ok) →
      ∀ q, fs2 q = fs q ∨ fs2 q = incoming q := by
  intro us
  induction us with
  | nil =>
    intro fs fs2 pend ok h q
    injection h with h1 h2
    rw [← h1]
    exact Or.inl rfl
  | cons u us ih =>
    intro fs fs2 pend ok h q
    obtain ⟨upath, uact, ureason, uold, unew, udiff⟩ := u
    rw [apply_files.eq_def] at h
    dsimp only at h
    rcases uact with _ | _ | _ | _ | _ <;> dsimp only at h
    · exact ih fs fs2 pend ok h q
    · rcases hin : incoming upath with _ | c <;> rw [hin] at h <;> dsimp only at h
      · injection h with h1 h2
        rw [← h1]
        exact Or.inl rfl
      · rcases ih (fsWrite fs upath c) fs2 pend ok h q with h0 | h0
        · unfold fsWrite at h0
          by_cases hq : (q == upath) = true
          · rw [if_pos hq] at h0
            have hq2 := beq_iff_eq.mp hq
            subst hq2
            exact Or.inr (h0.trans hin.symm)
          · rw [if_neg hq] at h0
            exact Or.inl h0
        · exact Or.inr h0
    · rcases hr : apply_files incoming us fs with ⟨g, pend2, ok2⟩
      rw [hr] at h
      dsimp only at h
      injection h with h1 h2
      rw [← h1]
      exact ih fs g pend2 ok2 hr q
    · rcases hin : incoming upath with _ | c <;> rw [hin] at h <;> dsimp only at h
      · injection h with h1 h2
        rw [← h1]
        exact Or.inl rfl
      · rcases ih (fsWrite fs upath c) fs2 pend ok h q with h0 | h0
        · unfold fsWrite at h0
          by_cases hq : (q == upath) = true
          · rw [if_pos hq] at h0
            have hq2 := beq_iff_eq.mp hq
            subst hq2
            exact Or.inr (h0.trans hin.symm)
          · rw [if_neg hq] at h0
            exact Or.inl h0
        · exact Or.inr h0
    · exact ih fs fs2 pend ok h q

/-- Re-running a completed copy loop on its own result is a fixpoint: the
files, the pending list and success are all reproduced. -/
theorem apply_files_fix (incoming : String → Option Bytes) :
    ∀ (us : List FileUpdate) (fs fs2 : String → Option Bytes)
      (pend : List FileUpdate),
      apply_files incoming us fs = (fs2, pend, true) →
      apply_files incoming us fs2 = (fs2, pend, true) := by
  intro us
  induction us with
  | nil =>
    intro fs fs2 pend h
    injection h with h1 h2
    injection h2 with h2a h2b
    rw [← h1, ← h2a]
    rfl
  | cons u us ih =>
    intro fs fs2 pend h
    obtain ⟨upath, uact, ureason, uold, unew, udiff⟩ := u
    rw [apply_files.eq_def] at h ⊢
    dsimp only at h ⊢
    rcases uact with _ | _ | _ | _ | _ <;> dsimp only at h ⊢
    · exact ih fs fs2 pend h
    · rcases hin : incoming upath with _ | c <;> rw [hin] at h <;>
        dsimp only at h ⊢
      · injection h with h1 h2
        injection h2 with h2a h2b
        cases h2b
      · have hval : fs2 upath = some c := by
          rcases apply_files_writes incoming us (fsWrite fs upath c) fs2 pend
              true h upath with h0 | h0
          · rw [h0]
            unfold fsWrite
            rw [if_pos (by simp)]
          · rw [h0, hin]
        rw [fsWrite_self fs2 upath c hval]
        exact ih (fsWrite fs upath c) fs2 pend h
    · rcases hr : apply_files incoming us fs with ⟨g, pend2, ok2⟩
      rw [hr] at h
      dsimp only at h
      injection h with h1 h2
      injection h2 with h2a h2b
      subst h1
      subst h2b
      have h3 := ih fs g pend2 hr
      rw [h3]
      dsimp only
      rw [h2a]
    · rcases hin : incoming upath with _ | c <;> rw [hin] at h <;>
        dsimp only at h ⊢
      · injection h with h1 h2
        injection h2 with h2a h2b
        cases h2b
      · have hval : fs2 upath = some c := by
          rcases apply_files_writes incoming us (fsWrite fs upath c) fs2 pend
              true h upath with h0 | h0
          · rw [h0]
            unfold fsWrite
            rw [if_pos (by simp)]
          · rw [h0, hin]
        rw [fsWrite_self fs2 upath c hval]
        exact ih (fsWrite fs upath c) fs2 pend h
    · exact ih fs fs2 pend h

/-- C8: applying the same unchanged plan a second time (same local root,
same incoming root, nothing changed in between) reproduces exactly the
state after the first application: same file contents, same pending
document, same persisted ledger. -/
theorem apply_update_plan_idempotent (plan : UpdatePlan)
    (incoming : String → Option Bytes) (st st1 : ProjState)
    (h : apply_update_plan plan incoming st = (st1, none)) :
    apply_update_plan plan incoming st1 = (st1, none) := by
  unfold apply_update_plan at h ⊢
  rcases ha : apply_files incoming plan.files st.files with ⟨fs2, pend, ok⟩
  rw [ha] at h
  dsimp only at h
  unfold apply_finish at h
  rcases ok with _ | _
  · rw [if_neg (by simp)] at h
    injection h with h1 h2
    cases h2
  · rw [if_pos rfl] at h
    have hfix := apply_files_fix incoming plan.files st.files fs2 pend ha
    rcases pend with _ | ⟨u, pend2⟩
    · injection h with h1 h2
      rw [← h1]
      dsimp only
      rw [hfix]
      dsimp only
      unfold apply_finish
      rw [if_pos rfl]
    · rcases hb : build_pending_doc incoming (u :: pend2) with e | doc <;>
        rw [hb] at h
      · injection h with h1 h2
        cases h2
      · injection h with h1 h2
        rw [← h1]
        dsimp only
        rw [hfix]
        dsimp only
        unfold apply_finish
        rw [if_pos rfl, hb]

/-- Incoming template used by the idempotence witness. -/
def c8Inc : String → Option Bytes :=
  fun q => if q == "a.md" then some [104] else none

/-- Plan used by the idempotence witness: one ADD entry. -/
def c8Plan : UpdatePlan :=
  ⟨"0.0.0", "1.0.0",
   [⟨"a.md", UpdateAction.add, "New file", none, some (byteDigest [104]), none⟩]⟩

/-- Initial project state of the idempotence witness. -/
def c8St : ProjState :=
  ⟨fun _ => none, none, none, some "0.0.0", true⟩

/-- Project state after one application of the witness plan. -/
def c8St1 : ProjState :=
  ⟨fsWrite (fun _ => none) "a.md" [104],
   some (save_original_hashes c8Plan), none, some "0.0.0", true⟩

/-- Witness for `apply_update_plan_idempotent` at a concrete one-file
plan: the second application reproduces the state of the first. -/
theorem apply_update_plan_idempotent_witness :
    apply_update_plan c8Plan c8Inc c8St = (c8St1, none) ∧
    apply_update_plan c8Plan c8Inc c8St1 = (c8St1, none) := by
  have h : apply_update_plan c8Plan c8Inc c8St = (c8St1, none) := by rfl
  exact ⟨h, apply_update_plan_idempotent c8Plan c8Inc c8St c8St1 h⟩

/-! ## Archive extraction (entry-name handling of `download_template`) -/

/-- Character-list leading-part test (Python `str.startswith` semantics):
first argument is the candidate leading part. -/
def chLeads : List Char → List Char → Bool
  | [], _ => true
  | _ :: _, [] => false
  | a :: as, b :: bs => a == b && chLeads as bs

/-- Python `member.startswith(pre)`. -/
def pyStarts (s pre : String) : Bool := chLeads pre.toList s.toList

/-- Python `member.endswith('/')`: zip directory entries. -/
def isDirEntry (s : String) : Bool := s.toList.getLast? == some '/'

/-- The characters of a name before its first `/` (Python
`name.split('/')[0]`). -/
def takeToSlash : List Char → List Char
  | [] => []
  | c :: cs => if c == '/' then [] else c :: takeToSlash cs

/-- Whether a name contains `/` (Python `len(name.split('/')) > 1`). -/
def hasSlash (s : String) : Bool := s.toList.any (fun c => c == '/')

/-- Python `member[n:]` for strings: drop the first `n` characters. -/
def pyDrop (s : String) (n : Nat) : String := String.mk (s.toList.drop n)

/-- The `top_dirs` set of the extraction loop: the first components of the
entry names that contain a `/` (names without a `/` contribute nothing),
as a deduplicated list — only its cardinality and sole element are used. -/
def topDirs (namelist : List String) : List String :=
  (namelist.filterMap
    (fun n => if hasSlash n then some (String.mk (takeToSlash n.toList)) else none)).dedup

/-- The `strip_prefix` computation: when the `top_dirs` set is a singleton
`{d}`, the prefix `d ++ "/"`, else the empty string. -/
def stripDir (namelist : List String) : String :=
  if (topDirs namelist).length == 1 then
    ((topDirs namelist).head?.getD "") ++ "/"
  else ""

/-- The entry-name handling of the zip extraction in `download_template`:
skip directory entries, strip `strip_prefix` from names that start with
it, skip names that reduce to nothing, and write the rest; returns the
written relative paths in order (contents are copied verbatim and carry
no information for the name-handling claims). -/
def extract_names (namelist : List String) : List String :=
  namelist.filterMap (fun member =>
    if isDirEntry member then none
    else
      (let rel :=
        if stripDir namelist != "" && pyStarts member (stripDir namelist) then
          pyDrop member (stripDir namelist).length
        else member
       if rel == "" then none else some rel))

example : extract_names ["top/a.txt", "top/b/c.md", "top/", "root.txt"] =
    ["a.txt", "b/c.md", "root.txt"] := by decide
example : extract_names ["x/a", "y/b"] = ["x/a", "y/b"] := by decide

/-- A successful leading-part test implies membership carries over. -/
theorem chLeads_subset :
    ∀ (l1 l2 : List Char), chLeads l1 l2 = true → ∀ a ∈ l1, a ∈ l2 := by
  intro l1
  induction l1 with
  | nil =>
    intro l2 h a ha
    cases ha
  | cons x xs ih =>
    intro l2 h a ha
    cases l2 with
    | nil => simp [chLeads] at h
    | cons y ys =>
      simp only [chLeads, Bool.and_eq_true, beq_iff_eq] at h
      rcases List.mem_cons.mp ha with rfl | ha2
      · rw [h.1]
        exact List.mem_cons_self y ys
      · exact List.mem_cons_of_mem _ (ih ys h.2 a ha2)

/-- C6 counterexample: in the archive with entries `dir/a.txt` and
`README` not every entry shares a single common top-level directory
(`README` sits at the root, under no directory at all), so the claim
requires every name to be written untouched; the code nevertheless
detects `top_dirs = {dir}` from the slash-containing entries alone and
strips `dir/`, writing `a.txt`. -/
theorem extract_strip_detection_cex :
    extract_names ["dir/a.txt", "README"] = ["a.txt", "README"] ∧
    (∀ d : String, ¬(pyStarts "README" (d ++ "/") = true)) ∧
    extract_names ["dir/a.txt", "README"] ≠ ["dir/a.txt", "README"] := by
  refine ⟨by decide, ?_, by decide⟩
  intro d hcontra
  have hmem : '/' ∈ "README".toList := by
    apply chLeads_subset _ _ hcontra
    have hl : (d ++ "/").toList = d.toList ++ ['/'] := by
      simp [String.toList]
    rw [hl]
    simp
  exact absurd hmem (by decide)

/-- The strip prefix is never the empty string when detection succeeds. -/
theorem stripPre_ne_empty (d : String) : ((d ++ "/") == "") = false := by
  rw [beq_eq_false_iff_ne]
  intro he
  have h2 := congrArg String.length he
  simp at h2
  exact absurd h2.2 (by decide)

/-- C6 amended: extraction strips the leading directory `d ++ "/"` exactly
when the entries that CONTAIN a `/` all share the single first component
`d`; root-level entry names without a `/` play no part in the detection
and are written untouched.  When the slash-containing entries have mixed
(or no) top directories, nothing is stripped and every name is written
untouched.  Directory entries, and names reducing to nothing, are always
skipped. -/
theorem extract_names_strip_spec (namelist : List String) :
    (∀ d : String, topDirs namelist = [d] →
      extract_names namelist = namelist.filterMap (fun m =>
        if isDirEntry m then none
        else if pyStarts m (d ++ "/") then
          (if pyDrop m (d ++ "/").length == "" then none
           else some (pyDrop m (d ++ "/").length))
        else if m == "" then none else some m)) ∧
    ((topDirs namelist).length ≠ 1 →
      extract_names namelist = namelist.filterMap (fun m =>
        if isDirEntry m then none
        else if m == "" then none else some m)) := by
  constructor
  · intro d htd
    have hsp : stripDir namelist = d ++ "/" := by
      simp [stripDir, htd]
    unfold extract_names
    rw [hsp]
    apply List.filterMap_congr
    intro m _
    by_cases hdir : isDirEntry m = true
    · simp [hdir]
    · simp only [Bool.not_eq_true] at hdir
      by_cases hst : pyStarts m (d ++ "/") = true
      · simp [hdir, bne, stripPre_ne_empty d, hst]
      · simp only [Bool.not_eq_true] at hst
        simp [hdir, bne, stripPre_ne_empty d, hst]
  · intro hlen
    have hsp : stripDir namelist = "" := by
      unfold stripDir
      rw [if_neg (by simpa using hlen)]
    unfold extract_names
    rw [hsp]
    apply List.filterMap_congr
    intro m _
    by_cases hdir : isDirEntry m = true
    · simp [hdir]
    · simp only [Bool.not_eq_true] at hdir
      simp [hdir, bne]

/-- Witness for `extract_names_strip_spec`: a concrete archive with one
shared top directory plus a root-level file (stripped), and a concrete
mixed archive (untouched). -/
theorem extract_names_strip_spec_witness :
    topDirs ["top/a.txt", "top/b/c.md", "root.txt"] = ["top"] ∧
    extract_names ["top/a.txt", "top/b/c.md", "root.txt"] =
      (["top/a.txt", "top/b/c.md", "root.txt"].filterMap (fun m =>
        if isDirEntry m then none
        else if pyStarts m ("top" ++ "/") then
          (if pyDrop m ("top" ++ "/").length == "" then none
           else some (pyDrop m ("top" ++ "/").length))
        else if m == "" then none else some m)) ∧
    (topDirs ["x/a", "y/b"]).length ≠ 1 ∧
    extract_names ["x/a", "y/b"] =
      (["x/a", "y/b"].filterMap (fun m =>
        if isDirEntry m then none
        else if m == "" then none else some m)) := by
  refine ⟨by decide, (extract_names_strip_spec _).1 "top" (by decide),
    by decide, (extract_names_strip_spec _).2 (by decide)⟩

/-! ## The update run -/

/-- Error outcomes of `run_update`; each aborts the run (a `typer.Exit(1)`
or propagated exception in the source), distinguished here the way the
printed messages distinguish them. -/
inductive RunError where
  | notAProject
  | versionNotFound
  | downloadFailed
  | planFailed
  | applyFailed
deriving DecidableEq, Repr

/-- `get_current_version` from the source: the version marker's content,
or `"0.0.0"` when the marker file is absent. -/
def get_current_version (st : ProjState) : String :=
  st.versionFile.getD "0.0.0"

/-- `save_version` from the source: write the version marker. -/
def save_version (st : ProjState) (v : String) : ProjState :=
  { st with versionFile := some v }

/-- An extracted incoming file list viewed as a filesystem. -/
def incLookup (incoming : List (String × Bytes)) : String → Option Bytes :=
  fun p => (incoming.find? (fun pc => pc.1 == p)).map Prod.snd

/-- `run_update` from the source over the modelled state.  The network is
a parameter: `latestTag` is what `get_latest_version()` returned (used
only when no version is requested) and `download` the outcome of
`download_template` for the resolved target — `.error code` models an
HTTP failure with that status raising before anything is extracted,
`.ok incoming` the extracted template files.  Agent/script detection only
shapes the download URL and is subsumed by the `download` parameter.
`confirm` is the interactive answer to the "Apply updates?" prompt.
Returns the resulting project state plus the error that aborted the run,
if any. -/
def run_update (hashFn : Bytes → String) (requested : Option String)
    (latestTag : String) (download : Except Nat (List (String × Bytes)))
    (dry_run force confirm : Bool) (st : ProjState) :
    ProjState × Option RunError :=
  if !st.hasSpectrenaDir then (st, some RunError.notAProject)
  else
    let current_version := get_current_version st
    let target_version := requested.getD latestTag
    if target_version == current_version && !force then (st, none)
    else
      match download with
      | .error code =>
        (st, some (if code == 404 then RunError.versionNotFound
                   else RunError.downloadFailed))
      | .ok incoming =>
        match create_update_plan hashFn st.files st.ledgerFile incoming
            current_version target_version with
        | .error _ => (st, some RunError.planFailed)
        | .ok plan =>
          if dry_run then (st, none)
          else if plan.update_count == 0 && plan.add_count == 0 &&
              plan.merge_count == 0 then
            (save_version st target_version, none)
          else if !force && !confirm then (st, none)
          else
            match apply_update_plan plan (incLookup incoming) st with
            | (st1, some _) => (st1, some RunError.applyFailed)
            | (st1, none) => (save_version st1 target_version, none)

/-- C9: requesting a version whose release archive does not exist upstream
(HTTP 404 on the download) aborts the run with the distinct not-found
error before any plan is built or applied: the returned state is exactly
the input state — no local file written, ledger and version marker
untouched. -/
theorem run_update_404 (hashFn : Bytes → String) (requested : Option String)
    (latestTag : String) (dry_run force confirm : Bool) (st : ProjState)
    (hdir : st.hasSpectrenaDir = true)
    (hne : (requested.getD latestTag == get_current_version st && !force) =
      false) :
    run_update hashFn requested latestTag (.error 404) dry_run force confirm st =
      (st, some RunError.versionNotFound) := by
  simp [run_update, hdir, hne]

/-- Project state of the not-found witness. -/
def c9St : ProjState :=
  ⟨fun _ => none, none, none, some "0.1.0", true⟩

/-- Witness for `run_update_404`: requesting the non-existent version
`9.9.9` fails with the not-found error and changes nothing. -/
theorem run_update_404_witness :
    c9St.hasSpectrenaDir = true ∧
    ((some "9.9.9").getD "1.0.0" == get_current_version c9St && !false) =
      false ∧
    run_update byteDigest (some "9.9.9") "1.0.0" (.error 404) false false false
        c9St = (c9St, some RunError.versionNotFound) :=
  ⟨rfl, by decide,
    run_update_404 byteDigest (some "9.9.9") "1.0.0" false false false c9St rfl
      (by decide)⟩
